import Mathlib

/-!
Verification development for the benchmark load driver of
src/run_benchmark.py (mariadb-benchmark).

The script spawns NUM_THREADS workers; each worker connects to a database,
runs QUERIES_PER_THREAD queries of randomly chosen type, records per-query
latencies, and returns a list of (query type, duration) pairs together with
a local error count.  The main procedure merges all worker results into a
dictionary from query type to duration list, sums the error counts, and
reports totals, throughput and per-type statistics.

The embedding below models every data-dependent decision of the script
(query-type choice, per-query success, connection success, close success,
measured durations, total wall-clock duration) as an explicit environment,
since the script draws them from a random generator, the database and the
clock.  Durations are rationals; the script uses floating point, which we
model by exact arithmetic.
-/

set_option maxHeartbeats 1000000

namespace Benchmark

/-- Query type chosen per iteration by random.choice on the list
SELECT, INSERT, UPDATE (src/run_benchmark.py line 53). -/
inductive QueryType where
  | select
  | insert
  | update
deriving DecidableEq, Repr

/-- One Query Record: (query_type, execution_time), as appended to
query_times at src/run_benchmark.py line 79. -/
abbrev QueryRecord := QueryType × ℚ

/-- Environment of one worker thread: all outcomes the script obtains from
the random generator, the database and the clock.
connectOk models whether the setup before the query loop (random database
choice, mysql.connector.connect, cursor creation; lines 34-45) succeeds;
queryKind i is the random.choice result of iteration i (line 53);
queryOk i tells whether the execute/fetch/commit of iteration i raises
(lines 56-76); duration i is the measured execution_time of iteration i
(line 78); closeOk models whether cursor.close and connection.close
(lines 89-90) succeed. -/
structure WorkerEnv where
  connectOk : Bool
  queryKind : Nat → QueryType
  queryOk : Nat → Bool
  duration : Nat → ℚ
  closeOk : Bool

/-- The query loop of run_benchmark_thread (src/run_benchmark.py lines
51-86): Q iterations; a successful iteration appends one record to
query_times, a failing one increments errors and continues. -/
def runLoop (env : WorkerEnv) (Q : Nat) : List QueryRecord × Nat :=
  (List.range Q).foldl
    (fun acc i =>
      if env.queryOk i then
        (acc.1 ++ [(env.queryKind i, env.duration i)], acc.2)
      else
        (acc.1, acc.2 + 1))
    ([], 0)

/-- One worker thread, src/run_benchmark.py lines 31-96.  The whole body is
wrapped in a try/except that returns ([], 1) on any escaping exception:
a failed connection attempt never reaches the loop, and a failure while
closing the cursor or connection (after the loop) discards the accumulated
query_times and errors. -/
def run_benchmark_thread (env : WorkerEnv) (Q : Nat) : List QueryRecord × Nat :=
  if env.connectOk then
    if env.closeOk then runLoop env Q
    else ([], 1)
  else ([], 1)

/-- Actions a worker iteration performs, in program order, used to state
where the inter-query delay happens (src/run_benchmark.py lines 55-86). -/
inductive BenchAction where
  | execQuery : QueryType → BenchAction
  | recordTime : QueryType → ℚ → BenchAction
  | countError : BenchAction
  | sleep : ℚ → BenchAction
deriving DecidableEq, Repr

/-- Is the action a sleep. -/
def BenchAction.isSleep : BenchAction → Bool
  | BenchAction.sleep _ => true
  | _ => false

/-- The fixed inter-query delay: time.sleep(0.1) at
src/run_benchmark.py line 82. -/
def interQueryDelay : ℚ := 1 / 10

/-- Trace of one loop iteration (src/run_benchmark.py lines 51-86).  The
try block executes the query, appends the record and then sleeps; the
except branch only counts the error, so no sleep is reached when the
query raises. -/
def iterationTrace (env : WorkerEnv) (i : Nat) : List BenchAction :=
  if env.queryOk i then
    [BenchAction.execQuery (env.queryKind i),
     BenchAction.recordTime (env.queryKind i) (env.duration i),
     BenchAction.sleep interQueryDelay]
  else
    [BenchAction.execQuery (env.queryKind i), BenchAction.countError]

/-- Trace of the whole query loop: the iteration traces in order. -/
def workerTrace (env : WorkerEnv) (Q : Nat) : List BenchAction :=
  (List.range Q).flatMap (iterationTrace env)

/-- Grouping step of main (src/run_benchmark.py lines 118-121): insert one
record into the all_query_times dictionary, modelled as an association
list in insertion order.  If the query type is already a key, the duration
is appended to its list; otherwise a new singleton entry is added at the
end, exactly like a Python dict. -/
def addRecordA : List (QueryType × List ℚ) → QueryRecord → List (QueryType × List ℚ)
  | [], r => [(r.1, [r.2])]
  | (k, v) :: rest, r =>
    if k = r.1 then (k, v ++ [r.2]) :: rest
    else (k, v) :: addRecordA rest r

/-- Dictionary lookup with default empty list (first matching key). -/
def lookupD : List (QueryType × List ℚ) → QueryType → List ℚ
  | [], _ => []
  | (k, v) :: rest, t => if k = t then v else lookupD rest t

/-- All records of a run in merge order: main iterates the futures in
submission order and each worker's query_times in list order
(src/run_benchmark.py lines 113-121). -/
def allRecords (results : List (List QueryRecord × Nat)) : List QueryRecord :=
  results.flatMap Prod.fst

/-- The merged all_query_times dictionary of main
(src/run_benchmark.py lines 110-121). -/
def mergeRecords (results : List (List QueryRecord × Nat)) :
    List (QueryType × List ℚ) :=
  (allRecords results).foldl addRecordA []

/-- Sum of all worker error counts (src/run_benchmark.py line 115). -/
def totalErrorsOf (results : List (List QueryRecord × Nat)) : Nat :=
  (results.map Prod.snd).sum

/-- total_queries of main (src/run_benchmark.py line 127): the sum of the
lengths of the per-type duration lists of the merged dictionary. -/
def totalQueriesOf (results : List (List QueryRecord × Nat)) : Nat :=
  ((mergeRecords results).map (fun e => e.2.length)).sum

/-- Minimum of a list, as the Python builtin min on a nonempty list; the
value on the empty list is irrelevant (main only calls it on nonempty
duration lists, src/run_benchmark.py line 141). -/
def listMin : List ℚ → ℚ
  | [] => 0
  | x :: xs => xs.foldl min x

/-- Maximum of a list, as the Python builtin max on a nonempty list
(src/run_benchmark.py line 142). -/
def listMax : List ℚ → ℚ
  | [] => 0
  | x :: xs => xs.foldl max x

/-- Median as computed by statistics.median (src/run_benchmark.py line
140): sort the data; for odd length take the middle element, for even
length the average of the two middle elements. -/
def pymedian (l : List ℚ) : ℚ :=
  let s := l.mergeSort (fun a b => decide (a ≤ b))
  if l.length % 2 = 1 then s.getD (l.length / 2) 0
  else (s.getD (l.length / 2 - 1) 0 + s.getD (l.length / 2) 0) / 2

/-- Per-type statistics block emitted by main for one query type
(src/run_benchmark.py lines 138-149): count, statistics.mean,
statistics.median, min, max. -/
structure KindStats where
  count : Nat
  avgTime : ℚ
  medianTime : ℚ
  minTime : ℚ
  maxTime : ℚ
deriving DecidableEq, Repr

/-- Statistics of one duration list (src/run_benchmark.py lines 139-149);
statistics.mean is the exact sum divided by the length. -/
def statsOf (times : List ℚ) : KindStats :=
  { count := times.length
    avgTime := times.sum / (times.length : ℚ)
    medianTime := pymedian times
    minTime := listMin times
    maxTime := listMax times }

/-- The full report computed by main (src/run_benchmark.py lines 98-149):
total duration, total queries, total errors, queries per second, and one
statistics block per query type present in the merged dictionary with a
nonempty duration list (the loop at lines 137-149 iterates the dictionary
in insertion order and skips falsy time lists). -/
structure RunReport where
  totalDuration : ℚ
  totalQueries : Nat
  totalErrors : Nat
  queriesPerSecond : ℚ
  kinds : List (QueryType × KindStats)
deriving DecidableEq, Repr

/-- The worker results of a run: main submits run_benchmark_thread i for
each i in range(NUM_THREADS) and collects the future results in order
(src/run_benchmark.py lines 107-114). -/
def runResults (W Q : Nat) (envs : Nat → WorkerEnv) :
    List (List QueryRecord × Nat) :=
  (List.range W).map (fun i => run_benchmark_thread (envs i) Q)

/-- The collector part of main (src/run_benchmark.py lines 110-149) as a
function of the worker results in merge order and the measured total
wall-clock duration dur: merge the records, sum the errors, and compute
total_queries, queries_per_second (total_queries / total_duration when
total_duration is positive, 0 otherwise, line 128) and the per-type
statistics blocks (lines 137-149, skipping falsy time lists). -/
def collectorReport (results : List (List QueryRecord × Nat)) (dur : ℚ) :
    RunReport :=
  let merged := mergeRecords results
  let totalQueries := (merged.map (fun e => e.2.length)).sum
  { totalDuration := dur
    totalQueries := totalQueries
    totalErrors := totalErrorsOf results
    queriesPerSecond := if 0 < dur then (totalQueries : ℚ) / dur else 0
    kinds := merged.filterMap
      (fun e => if e.2.isEmpty then none else some (e.1, statsOf e.2)) }

/-- The report of main (src/run_benchmark.py lines 98-149): the collector
applied to the worker results in submission order. -/
def mainReport (W Q : Nat) (envs : Nat → WorkerEnv) (dur : ℚ) : RunReport :=
  collectorReport (runResults W Q envs) dur

/-- The whole run of main, including the construction of the thread pool:
ThreadPoolExecutor raises ValueError (message: max_workers must be greater
than 0) when max_workers is not positive, so with NUM_THREADS = 0 the run
aborts before any worker is submitted (src/run_benchmark.py line 106 and
the Python standard library concurrent.futures.thread module). -/
def mainRun (W Q : Nat) (envs : Nat → WorkerEnv) (dur : ℚ) :
    Except String RunReport :=
  if W = 0 then Except.error "max_workers must be greater than 0"
  else Except.ok (mainReport W Q envs dur)

/-- Insert identity: username of the INSERT of worker thread_id at
iteration i (src/run_benchmark.py line 65). -/
def insertUsername (thread_id i : Nat) : String :=
  "user_" ++ Nat.repr thread_id ++ "_" ++ Nat.repr i

/-- Insert identity: email derived from the username
(src/run_benchmark.py line 66). -/
def insertEmail (thread_id i : Nat) : String :=
  insertUsername thread_id i ++ "@example.com"

/-! Proof helpers.  The definitions below do not embed source code; they
are specification-side observers used to state and prove properties of the
embedding above. -/

/-- Proof helper: the durations of all records of a given query type, in
record order. -/
def kindDur (t : QueryType) (recs : List QueryRecord) : List ℚ :=
  (recs.filter (fun r => r.1 = t)).map Prod.snd

/-- Proof helper: the keys of the merged dictionary, in insertion order. -/
def keysOf (m : List (QueryType × List ℚ)) : List QueryType :=
  m.map Prod.fst

/-- Proof helper: numeric value of a decimal digit character. -/
def digitVal (c : Char) : Nat :=
  c.toNat - 48

/-- Proof helper: read a decimal digit list back into a number; inverse of
Nat.toDigits 10 on its range. -/
def decDigits (cs : List Char) : Nat :=
  cs.foldl (fun a c => 10 * a + digitVal c) 0

/-- Sample environment: every operation succeeds, every query is a SELECT
taking one second. -/
def envOkAll : WorkerEnv :=
  { connectOk := true
    queryKind := fun _ => QueryType.select
    queryOk := fun _ => true
    duration := fun _ => 1
    closeOk := true }

/-- Sample environment: the connection attempt fails. -/
def envConnFail : WorkerEnv :=
  { envOkAll with connectOk := false }

/-- Sample environment: closing the cursor or connection fails. -/
def envCloseFail : WorkerEnv :=
  { envOkAll with closeOk := false }

/-- Sample environment: every query raises. -/
def envQueryFail : WorkerEnv :=
  { envOkAll with queryOk := fun _ => false }

/-- Sample environment family: worker 0 fails to connect, every other
worker succeeds throughout. -/
def envsOneConnFail : Nat → WorkerEnv :=
  fun i => if i = 0 then envConnFail else envOkAll

/-! Basic lemmas about the worker loop. -/

/-- Unfolding one iteration of the query loop from the end. -/
theorem runLoop_succ (env : WorkerEnv) (Q : Nat) :
    runLoop env (Q + 1) =
      if env.queryOk Q then
        ((runLoop env Q).1 ++ [(env.queryKind Q, env.duration Q)],
         (runLoop env Q).2)
      else ((runLoop env Q).1, (runLoop env Q).2 + 1) := by
  unfold runLoop
  rw [List.range_succ, List.foldl_append]
  by_cases h : env.queryOk Q <;> simp [h]

/-- Each iteration contributes exactly one record or one error. -/
theorem runLoop_length_add_errors (env : WorkerEnv) (Q : Nat) :
    (runLoop env Q).1.length + (runLoop env Q).2 = Q := by
  induction Q with
  | zero => rfl
  | succ Q ih =>
    rw [runLoop_succ]
    by_cases h : env.queryOk Q <;> simp [h] <;> omega

/-- The loop records exactly the successful iterations. -/
theorem runLoop_length (env : WorkerEnv) (Q : Nat) :
    (runLoop env Q).1.length = (List.range Q).countP env.queryOk := by
  induction Q with
  | zero => rfl
  | succ Q ih =>
    rw [runLoop_succ, List.range_succ, List.countP_append]
    by_cases h : env.queryOk Q <;> simp [h, ih]

/-- The loop counts exactly the failing iterations as errors. -/
theorem runLoop_errors (env : WorkerEnv) (Q : Nat) :
    (runLoop env Q).2 = (List.range Q).countP (fun i => !env.queryOk i) := by
  induction Q with
  | zero => rfl
  | succ Q ih =>
    rw [runLoop_succ, List.range_succ, List.countP_append]
    by_cases h : env.queryOk Q <;> simp [h, ih]

/-- A worker whose setup and teardown both succeed returns the loop
result. -/
theorem run_benchmark_thread_ok (env : WorkerEnv) (Q : Nat)
    (h1 : env.connectOk = true) (h2 : env.closeOk = true) :
    run_benchmark_thread env Q = runLoop env Q := by
  simp [run_benchmark_thread, h1, h2]

/-- Count of sleeps in one iteration trace. -/
theorem iterationTrace_countP_sleep (env : WorkerEnv) (i : Nat) :
    (iterationTrace env i).countP BenchAction.isSleep =
      if env.queryOk i then 1 else 0 := by
  by_cases h : env.queryOk i <;>
    simp [iterationTrace, h, BenchAction.isSleep, List.countP_cons]

/-- C9: if an exception occurs after the query loop has finished, while
closing the cursor or the connection, the worker returns an empty record
list and error count exactly 1, discarding every record and per-query
error accumulated during the run (outer except at src/run_benchmark.py
lines 94-96). -/
theorem close_failure_returns_empty_and_one_error (env : WorkerEnv)
    (Q : Nat) (hc : env.connectOk = true) (hk : env.closeOk = false) :
    run_benchmark_thread env Q = ([], 1) := by
  simp [run_benchmark_thread, hc, hk]

/-- Witness for C9: a worker with three successful queries whose close
fails returns ([], 1), although its loop had accumulated three records. -/
theorem close_failure_returns_empty_and_one_error_witness :
    (runLoop envCloseFail 3).1.length = 3 ∧
    run_benchmark_thread envCloseFail 3 = ([], 1) :=
  ⟨by decide,
   close_failure_returns_empty_and_one_error envCloseFail 3 rfl rfl⟩

/-- C3 counterexample: in an iteration whose query raises, the except
branch (src/run_benchmark.py lines 84-86) skips the sleep at line 82,
which sits inside the try block: the iteration performs zero sleeps, not
exactly one as claimed. -/
theorem sleep_skipped_on_query_failure :
    envQueryFail.queryOk 0 = false ∧
    (iterationTrace envQueryFail 0).countP BenchAction.isSleep = 0 ∧
    (workerTrace envQueryFail 1).countP BenchAction.isSleep = 0 := by
  refine ⟨rfl, rfl, ?_⟩
  simp [workerTrace, iterationTrace, envQueryFail, envOkAll,
    BenchAction.isSleep, List.countP_cons]

/-- C3 amended: the inter-query delay is performed only after a successful
query; a failing iteration performs no sleep, so the loop sleeps once per
successful query rather than once per iteration. -/
theorem sleep_follows_only_successful_queries (env : WorkerEnv) (Q : Nat) :
    (∀ i, (iterationTrace env i).countP BenchAction.isSleep =
        if env.queryOk i then 1 else 0) ∧
    (∀ i, ((iterationTrace env i).getLast? =
        some (BenchAction.sleep interQueryDelay) ↔ env.queryOk i = true)) ∧
    (workerTrace env Q).countP BenchAction.isSleep =
      (List.range Q).countP env.queryOk := by
  refine ⟨iterationTrace_countP_sleep env, ?_, ?_⟩
  · intro i
    by_cases h : env.queryOk i <;> simp [iterationTrace, h]
  · unfold workerTrace
    induction Q with
    | zero => rfl
    | succ Q ih =>
      rw [List.range_succ, List.flatMap_append, List.countP_append,
        List.countP_append, ih]
      simp [iterationTrace_countP_sleep]
      by_cases h : env.queryOk Q <;> simp [h]

/-- C6: the reported throughput equals total queries divided by total
duration whenever the total duration is positive, and equals 0 whenever
it is zero or negative (src/run_benchmark.py line 128). -/
theorem queries_per_second_spec (W Q : Nat) (envs : Nat → WorkerEnv)
    (dur : ℚ) :
    (0 < dur → (mainReport W Q envs dur).queriesPerSecond =
        ((mainReport W Q envs dur).totalQueries : ℚ) / dur) ∧
    (dur ≤ 0 → (mainReport W Q envs dur).queriesPerSecond = 0) := by
  constructor <;> intro h
  · simp [mainReport, collectorReport, h]
  · simp [mainReport, collectorReport, not_lt.mpr h]

/-- Witness for C6 at positive and at zero duration. -/
theorem queries_per_second_spec_witness :
    (mainReport 1 1 (fun _ => envOkAll) 2).queriesPerSecond =
      ((mainReport 1 1 (fun _ => envOkAll) 2).totalQueries : ℚ) / 2 ∧
    (mainReport 1 1 (fun _ => envOkAll) 0).queriesPerSecond = 0 :=
  ⟨(queries_per_second_spec 1 1 (fun _ => envOkAll) 2).1 (by norm_num),
   (queries_per_second_spec 1 1 (fun _ => envOkAll) 0).2 le_rfl⟩

/-! Lemmas about the merged dictionary. -/

/-- Inserting one record appends its duration to the entry of its type and
leaves every other lookup unchanged. -/
theorem lookupD_addRecordA (m : List (QueryType × List ℚ))
    (r : QueryRecord) (t : QueryType) :
    lookupD (addRecordA m r) t =
      lookupD m t ++ if r.1 = t then [r.2] else [] := by
  obtain ⟨rt, rd⟩ := r
  induction m with
  | nil =>
    by_cases h : rt = t <;> simp [addRecordA, lookupD, h]
  | cons hd tl ih =>
    obtain ⟨k, v⟩ := hd
    by_cases hk : k = rt
    · subst hk
      by_cases ht : k = t <;> simp [addRecordA, lookupD, ht]
    · by_cases ht : k = t
      · subst ht
        have : rt ≠ k := fun hh => hk hh.symm
        simp [addRecordA, lookupD, hk, this]
      · simp [addRecordA, lookupD, hk, ht, ih]

/-- Inserting one record grows the total stored length by one. -/
theorem sumLen_addRecordA (m : List (QueryType × List ℚ)) (r : QueryRecord) :
    ((addRecordA m r).map (fun e => e.2.length)).sum =
      (m.map (fun e => e.2.length)).sum + 1 := by
  induction m with
  | nil => simp [addRecordA]
  | cons hd tl ih =>
    obtain ⟨k, v⟩ := hd
    by_cases h : k = r.1 <;> simp [addRecordA, h, ih] <;> omega

/-- Folding records into the dictionary stores one duration per record. -/
theorem sumLen_foldl (recs : List QueryRecord)
    (m : List (QueryType × List ℚ)) :
    (((recs.foldl addRecordA m)).map (fun e => e.2.length)).sum =
      (m.map (fun e => e.2.length)).sum + recs.length := by
  induction recs generalizing m with
  | nil => simp
  | cons r rs ih =>
    simp only [List.foldl_cons, ih, sumLen_addRecordA, List.length_cons]
    omega

/-- total_queries is the total number of merged records. -/
theorem totalQueriesOf_eq_length (results : List (List QueryRecord × Nat)) :
    totalQueriesOf results = (allRecords results).length := by
  unfold totalQueriesOf mergeRecords
  rw [sumLen_foldl]
  simp

/-- The duration lists of one type distribute over cons. -/
theorem kindDur_cons (t : QueryType) (r : QueryRecord)
    (rs : List QueryRecord) :
    kindDur t (r :: rs) =
      (if r.1 = t then [r.2] else []) ++ kindDur t rs := by
  by_cases h : r.1 = t <;> simp [kindDur, List.filter_cons, h]

/-- Lookup after folding records into the dictionary: the previous entry
followed by the durations of that type in record order. -/
theorem lookupD_foldl (recs : List QueryRecord)
    (m : List (QueryType × List ℚ)) (t : QueryType) :
    lookupD (recs.foldl addRecordA m) t = lookupD m t ++ kindDur t recs := by
  induction recs generalizing m with
  | nil => simp [kindDur]
  | cons r rs ih =>
    simp only [List.foldl_cons, ih, lookupD_addRecordA, kindDur_cons,
      List.append_assoc]

/-- The merged dictionary maps each type to its durations in merge
order. -/
theorem lookupD_mergeRecords (results : List (List QueryRecord × Nat))
    (t : QueryType) :
    lookupD (mergeRecords results) t = kindDur t (allRecords results) := by
  unfold mergeRecords
  rw [lookupD_foldl]
  rfl

/-- Every value stored by an insertion is nonempty. -/
theorem addRecordA_ne_nil (m : List (QueryType × List ℚ)) (r : QueryRecord)
    (h : ∀ e ∈ m, e.2 ≠ []) : ∀ e ∈ addRecordA m r, e.2 ≠ [] := by
  induction m with
  | nil => simp [addRecordA]
  | cons hd tl ih =>
    obtain ⟨k, v⟩ := hd
    by_cases hk : k = r.1
    · intro e he
      rw [addRecordA, if_pos hk] at he
      rcases List.mem_cons.mp he with h1 | h1
      · subst h1; simp
      · exact h e (List.mem_cons_of_mem _ h1)
    · intro e he
      rw [addRecordA, if_neg hk] at he
      rcases List.mem_cons.mp he with h1 | h1
      · subst h1; exact h (k, v) (List.mem_cons_self _ _)
      · exact ih (fun e' he' => h e' (List.mem_cons_of_mem _ he')) e h1

/-- Every value of the merged dictionary is nonempty: an entry is created
only when a first record of its type arrives. -/
theorem mergeRecords_ne_nil (results : List (List QueryRecord × Nat)) :
    ∀ e ∈ mergeRecords results, e.2 ≠ [] := by
  unfold mergeRecords
  generalize allRecords results = recs
  have main : ∀ (recs : List QueryRecord) (m : List (QueryType × List ℚ)),
      (∀ e ∈ m, e.2 ≠ []) → ∀ e ∈ recs.foldl addRecordA m, e.2 ≠ [] := by
    intro recs
    induction recs with
    | nil => intro m hm; simpa using hm
    | cons r rs ih =>
      intro m hm
      simpa using ih (addRecordA m r) (addRecordA_ne_nil m r hm)
  exact main recs [] (by simp)

/-- Keys after an insertion come from the old keys or the new record. -/
theorem keysOf_addRecordA (m : List (QueryType × List ℚ)) (r : QueryRecord)
    (t : QueryType) (h : t ∈ keysOf (addRecordA m r)) :
    t ∈ keysOf m ∨ t = r.1 := by
  induction m with
  | nil => simp [addRecordA, keysOf] at h; simp [h]
  | cons hd tl ih =>
    obtain ⟨k, v⟩ := hd
    by_cases hk : k = r.1
    · rw [addRecordA, if_pos hk] at h
      simp only [keysOf, List.map_cons, List.mem_cons] at h ⊢
      tauto
    · rw [addRecordA, if_neg hk] at h
      simp only [keysOf, List.map_cons, List.mem_cons] at h ⊢
      rcases h with h | h
      · tauto
      · rcases ih h with h1 | h1 <;> tauto

/-- Insertion preserves distinctness of the dictionary keys. -/
theorem keysOf_addRecordA_nodup (m : List (QueryType × List ℚ))
    (r : QueryRecord) (h : (keysOf m).Nodup) :
    (keysOf (addRecordA m r)).Nodup := by
  induction m with
  | nil => simp [addRecordA, keysOf]
  | cons hd tl ih =>
    obtain ⟨k, v⟩ := hd
    simp only [keysOf, List.map_cons, List.nodup_cons] at h
    by_cases hk : k = r.1
    · rw [addRecordA, if_pos hk]
      simp only [keysOf, List.map_cons, List.nodup_cons]
      exact h
    · rw [addRecordA, if_neg hk]
      simp only [keysOf, List.map_cons, List.nodup_cons]
      refine ⟨?_, ih h.2⟩
      intro hmem
      rcases keysOf_addRecordA tl r k hmem with h1 | h1
      · exact h.1 h1
      · exact hk h1

/-- The merged dictionary has pairwise distinct keys. -/
theorem mergeRecords_keys_nodup (results : List (List QueryRecord × Nat)) :
    (keysOf (mergeRecords results)).Nodup := by
  unfold mergeRecords
  generalize allRecords results = recs
  have main : ∀ (recs : List QueryRecord) (m : List (QueryType × List ℚ)),
      (keysOf m).Nodup → (keysOf (recs.foldl addRecordA m)).Nodup := by
    intro recs
    induction recs with
    | nil => intro m hm; simpa using hm
    | cons r rs ih =>
      intro m hm
      simpa using ih (addRecordA m r) (keysOf_addRecordA_nodup m r hm)
  exact main recs [] (by simp [keysOf])

/-- With distinct keys, membership determines the lookup. -/
theorem lookupD_eq_of_mem (m : List (QueryType × List ℚ)) (t : QueryType)
    (v : List ℚ) (hn : (keysOf m).Nodup) (h : (t, v) ∈ m) :
    lookupD m t = v := by
  induction m with
  | nil => simp at h
  | cons hd tl ih =>
    obtain ⟨k, w⟩ := hd
    simp only [keysOf, List.map_cons, List.nodup_cons] at hn
    rcases List.mem_cons.mp h with h1 | h1
    · injection h1 with h2 h3
      subst h2; subst h3
      simp [lookupD]
    · have ht : k ≠ t := by
        intro hkt
        subst hkt
        exact hn.1 (List.mem_map_of_mem Prod.fst h1)
      simp only [lookupD, if_neg ht]
      exact ih hn.2 h1

/-- A nonempty lookup result is an entry of the dictionary. -/
theorem mem_of_lookupD (m : List (QueryType × List ℚ)) (t : QueryType)
    (h : lookupD m t ≠ []) : (t, lookupD m t) ∈ m := by
  induction m with
  | nil => simp [lookupD] at h
  | cons hd tl ih =>
    obtain ⟨k, w⟩ := hd
    by_cases hk : k = t
    · subst hk
      simp [lookupD]
    · simp only [lookupD, if_neg hk] at h ⊢
      exact List.mem_cons_of_mem _ (ih h)

/-! Lemmas about the collected run results. -/

/-- Error totals add over concatenated result lists. -/
theorem totalErrorsOf_append (a b : List (List QueryRecord × Nat)) :
    totalErrorsOf (a ++ b) = totalErrorsOf a + totalErrorsOf b := by
  simp [totalErrorsOf]

/-- Records concatenate over concatenated result lists. -/
theorem allRecords_append (a b : List (List QueryRecord × Nat)) :
    allRecords (a ++ b) = allRecords a ++ allRecords b := by
  simp [allRecords]

/-- The results of a run with one more worker. -/
theorem runResults_succ (W Q : Nat) (envs : Nat → WorkerEnv) :
    runResults (W + 1) Q envs =
      runResults W Q envs ++ [run_benchmark_thread (envs W) Q] := by
  simp [runResults, List.range_succ]

/-- C1 counterexample: with one worker, two queries per worker and a
failing connection attempt, the collector merges 0 Query Records and
counts 1 error, so records plus errors is 1, not W times Q = 2: a worker
that never connects accounts for one error, not for its Q unattempted
queries (src/run_benchmark.py lines 94-96). -/
theorem accounting_fails_on_connection_failure :
    totalQueriesOf (runResults 1 2 (fun _ => envConnFail)) +
      totalErrorsOf (runResults 1 2 (fun _ => envConnFail)) = 1 ∧
    1 ≠ 1 * 2 := by
  constructor
  · rfl
  · decide

/-- C1 amended: when every worker connects and closes successfully, each
of the Q iterations of each of the W workers yields exactly one record or
one error, so the merged record count plus the error total equals W times
Q; a worker whose connection attempt or teardown fails instead contributes
0 records and exactly 1 error, breaking the W times Q accounting. -/
theorem record_error_accounting (W Q : Nat) (envs : Nat → WorkerEnv)
    (h : ∀ i, i < W → (envs i).connectOk = true ∧ (envs i).closeOk = true) :
    totalQueriesOf (runResults W Q envs) +
      totalErrorsOf (runResults W Q envs) = W * Q := by
  induction W with
  | zero =>
    have h0 : totalQueriesOf (runResults 0 Q envs) +
        totalErrorsOf (runResults 0 Q envs) = 0 := rfl
    omega
  | succ W ih =>
    have hW := h W (Nat.lt_succ_self W)
    rw [runResults_succ, totalQueriesOf_eq_length, allRecords_append,
      totalErrorsOf_append, List.length_append]
    have hthread : run_benchmark_thread (envs W) Q = runLoop (envs W) Q :=
      run_benchmark_thread_ok (envs W) Q hW.1 hW.2
    have hworker : (run_benchmark_thread (envs W) Q).1.length +
        (run_benchmark_thread (envs W) Q).2 = Q := by
      rw [hthread]; exact runLoop_length_add_errors (envs W) Q
    have hprev := ih (fun i hi => h i (Nat.lt_succ_of_lt hi))
    rw [totalQueriesOf_eq_length] at hprev
    have hsingle : allRecords [run_benchmark_thread (envs W) Q] =
        (run_benchmark_thread (envs W) Q).1 := by
      simp [allRecords]
    have hesingle : totalErrorsOf [run_benchmark_thread (envs W) Q] =
        (run_benchmark_thread (envs W) Q).2 := by
      simp [totalErrorsOf]
    rw [hsingle, hesingle]
    calc (allRecords (runResults W Q envs)).length +
          (run_benchmark_thread (envs W) Q).1.length +
          (totalErrorsOf (runResults W Q envs) +
            (run_benchmark_thread (envs W) Q).2)
        = ((allRecords (runResults W Q envs)).length +
            totalErrorsOf (runResults W Q envs)) +
          ((run_benchmark_thread (envs W) Q).1.length +
            (run_benchmark_thread (envs W) Q).2) := by omega
      _ = W * Q + Q := by rw [hprev, hworker]
      _ = (W + 1) * Q := by ring

/-- Witness for C1 amended: two all-successful workers with three queries
each account for exactly six records plus errors. -/
theorem record_error_accounting_witness :
    totalQueriesOf (runResults 2 3 (fun _ => envOkAll)) +
      totalErrorsOf (runResults 2 3 (fun _ => envOkAll)) = 2 * 3 :=
  record_error_accounting 2 3 (fun _ => envOkAll) (fun _ _ => ⟨rfl, rfl⟩)

/-- C10: the reported total query count is the number of merged Query
Records, that is the sum of the lengths of the per-type duration lists
(src/run_benchmark.py line 127), and a normally terminating worker records
exactly its successful queries, so failed attempts appear in neither the
total-queries figure nor the throughput numerator. -/
theorem total_queries_counts_only_successes (W Q : Nat)
    (envs : Nat → WorkerEnv) (dur : ℚ) :
    (mainReport W Q envs dur).totalQueries =
      (allRecords (runResults W Q envs)).length ∧
    (∀ env : WorkerEnv, env.connectOk = true → env.closeOk = true →
      (run_benchmark_thread env Q).1.length =
        (List.range Q).countP env.queryOk) := by
  constructor
  · exact totalQueriesOf_eq_length (runResults W Q envs)
  · intro env h1 h2
    rw [run_benchmark_thread_ok env Q h1 h2]
    exact runLoop_length env Q

/-- Witness for C10: a run of two workers with two queries each, one query
failing, counts only the successes. -/
theorem total_queries_counts_only_successes_witness :
    (mainReport 2 2 (fun _ => envOkAll) 1).totalQueries =
      (allRecords (runResults 2 2 (fun _ => envOkAll))).length ∧
    (run_benchmark_thread envOkAll 2).1.length =
      (List.range 2).countP envOkAll.queryOk :=
  ⟨(total_queries_counts_only_successes 2 2 (fun _ => envOkAll) 1).1,
   (total_queries_counts_only_successes 2 2 (fun _ => envOkAll) 1).2
     envOkAll rfl rfl⟩

/-- C4 counterexample: with W = 0 configured workers the run does not
complete normally: ThreadPoolExecutor raises ValueError for a
non-positive max_workers before any worker is submitted
(src/run_benchmark.py line 106). -/
theorem zero_workers_raises :
    mainRun 0 5 (fun _ => envOkAll) 1 =
      Except.error "max_workers must be greater than 0" := rfl

/-- C4 amended: with W = 0 the executor construction raises ValueError;
with Q = 0 and at least one worker, if every worker connects and closes
successfully the run completes with zero Query Records, zero errors and
throughput 0, and no division by zero occurs. -/
theorem zero_work_run (W Q : Nat) (envs : Nat → WorkerEnv) (dur : ℚ) :
    (W = 0 → mainRun W Q envs dur =
      Except.error "max_workers must be greater than 0") ∧
    (Q = 0 → 0 < W →
      (∀ i, i < W → (envs i).connectOk = true ∧ (envs i).closeOk = true) →
      mainRun W Q envs dur = Except.ok (mainReport W Q envs dur) ∧
      (mainReport W Q envs dur).totalQueries = 0 ∧
      (mainReport W Q envs dur).totalErrors = 0 ∧
      (mainReport W Q envs dur).queriesPerSecond = 0) := by
  constructor
  · intro h
    simp [mainRun, h]
  · intro hQ hW h
    subst hQ
    have hacc := record_error_accounting W 0 envs h
    have hq : (mainReport W 0 envs dur).totalQueries =
        totalQueriesOf (runResults W 0 envs) := rfl
    have he : (mainReport W 0 envs dur).totalErrors =
        totalErrorsOf (runResults W 0 envs) := rfl
    have hq0 : (mainReport W 0 envs dur).totalQueries = 0 := by omega
    refine ⟨?_, hq0, by omega, ?_⟩
    · simp [mainRun, Nat.pos_iff_ne_zero.mp hW]
    · have : (mainReport W 0 envs dur).queriesPerSecond =
          if 0 < dur then
            (((mainReport W 0 envs dur).totalQueries : ℚ)) / dur
          else 0 := rfl
      rw [this, hq0]
      by_cases hd : 0 < dur <;> simp [hd]

/-- Witness for C4 amended: the raising case at W = 0 and the completing
case at W = 2, Q = 0. -/
theorem zero_work_run_witness :
    mainRun 0 3 (fun _ => envOkAll) 1 =
      Except.error "max_workers must be greater than 0" ∧
    (mainRun 2 0 (fun _ => envOkAll) 1 =
      Except.ok (mainReport 2 0 (fun _ => envOkAll) 1) ∧
    (mainReport 2 0 (fun _ => envOkAll) 1).totalQueries = 0 ∧
    (mainReport 2 0 (fun _ => envOkAll) 1).totalErrors = 0 ∧
    (mainReport 2 0 (fun _ => envOkAll) 1).queriesPerSecond = 0) :=
  ⟨(zero_work_run 0 3 (fun _ => envOkAll) 1).1 rfl,
   (zero_work_run 2 0 (fun _ => envOkAll) 1).2 rfl (by decide)
     (fun _ _ => ⟨rfl, rfl⟩)⟩

/-- Error totals over a cons. -/
theorem totalErrorsOf_cons (x : List QueryRecord × Nat)
    (l : List (List QueryRecord × Nat)) :
    totalErrorsOf (x :: l) = x.2 + totalErrorsOf l := by
  simp [totalErrorsOf]

/-- Records over a cons. -/
theorem allRecords_cons (x : List QueryRecord × Nat)
    (l : List (List QueryRecord × Nat)) :
    allRecords (x :: l) = x.1 ++ allRecords l := by
  simp [allRecords]

/-- C2: a worker whose connection attempt fails contributes exactly zero
Query Records and exactly one error to the merged result, and the other
workers' records and errors appear unchanged in the merged report: the
total error count is the other workers' total plus one, and the merged
dictionary is exactly the one merged from the other workers' results
(src/run_benchmark.py lines 94-96 and 113-121). -/
theorem connection_failure_isolated (W Q j : Nat) (envs : Nat → WorkerEnv)
    (hj : j < W) (hconn : (envs j).connectOk = false) :
    run_benchmark_thread (envs j) Q = ([], 1) ∧
    totalErrorsOf (runResults W Q envs) =
      totalErrorsOf ((runResults W Q envs).take j ++
        (runResults W Q envs).drop (j + 1)) + 1 ∧
    mergeRecords (runResults W Q envs) =
      mergeRecords ((runResults W Q envs).take j ++
        (runResults W Q envs).drop (j + 1)) := by
  have hthread : run_benchmark_thread (envs j) Q = ([], 1) := by
    simp [run_benchmark_thread, hconn]
  set R := runResults W Q envs with hR
  have hjl : j < R.length := by
    simpa [hR, runResults] using hj
  have hget : R[j] = ([], 1) := by
    simp only [hR, runResults, List.getElem_map, List.getElem_range]
    exact hthread
  have hdrop : R.drop j = ([], 1) :: R.drop (j + 1) := by
    rw [List.drop_eq_getElem_cons hjl, hget]
  have hsplit : R = R.take j ++ R.drop j := (List.take_append_drop j R).symm
  refine ⟨hthread, ?_, ?_⟩
  · calc totalErrorsOf R
        = totalErrorsOf (R.take j ++ R.drop j) := by rw [← hsplit]
      _ = totalErrorsOf (R.take j) + totalErrorsOf (R.drop j) :=
          totalErrorsOf_append _ _
      _ = totalErrorsOf (R.take j) + (1 + totalErrorsOf (R.drop (j + 1))) := by
          rw [hdrop, totalErrorsOf_cons]
      _ = (totalErrorsOf (R.take j) + totalErrorsOf (R.drop (j + 1))) + 1 := by
          omega
      _ = totalErrorsOf (R.take j ++ R.drop (j + 1)) + 1 := by
          rw [totalErrorsOf_append]
  · have hall : allRecords R = allRecords (R.take j ++ R.drop (j + 1)) := by
      calc allRecords R
          = allRecords (R.take j ++ R.drop j) := by rw [← hsplit]
        _ = allRecords (R.take j) ++ allRecords (R.drop j) :=
            allRecords_append _ _
        _ = allRecords (R.take j) ++ allRecords (R.drop (j + 1)) := by
            rw [hdrop, allRecords_cons]
            simp
        _ = allRecords (R.take j ++ R.drop (j + 1)) := by
            rw [allRecords_append]
    unfold mergeRecords
    rw [hall]

/-- Witness for C2: two workers, the first one failing to connect; the
second worker's record and error totals survive the merge unchanged. -/
theorem connection_failure_isolated_witness :
    run_benchmark_thread (envsOneConnFail 0) 1 = ([], 1) ∧
    totalErrorsOf (runResults 2 1 envsOneConnFail) =
      totalErrorsOf ((runResults 2 1 envsOneConnFail).take 0 ++
        (runResults 2 1 envsOneConnFail).drop 1) + 1 ∧
    mergeRecords (runResults 2 1 envsOneConnFail) =
      mergeRecords ((runResults 2 1 envsOneConnFail).take 0 ++
        (runResults 2 1 envsOneConnFail).drop 1) :=
  connection_failure_isolated 2 1 0 envsOneConnFail (by decide) rfl

/-- Membership in the emitted per-type statistics list: a pair (t, s) is
emitted exactly when the merged dictionary holds a nonempty duration list
for t and s is its statistics block. -/
theorem mem_kinds_iff (results : List (List QueryRecord × Nat)) (dur : ℚ)
    (t : QueryType) (s : KindStats) :
    (t, s) ∈ (collectorReport results dur).kinds ↔
      (lookupD (mergeRecords results) t ≠ [] ∧
       s = statsOf (lookupD (mergeRecords results) t)) := by
  have hkinds : (collectorReport results dur).kinds =
      (mergeRecords results).filterMap
        (fun e => if e.2.isEmpty then none else some (e.1, statsOf e.2)) :=
    rfl
  rw [hkinds]
  constructor
  · intro h
    obtain ⟨e, hem, he⟩ := List.mem_filterMap.mp h
    obtain ⟨k, v⟩ := e
    by_cases hne : v.isEmpty
    · rw [if_pos hne] at he
      cases he
    · rw [if_neg hne] at he
      injection he with he'
      have h1 : k = t := congrArg Prod.fst he'
      have h2 : statsOf v = s := congrArg Prod.snd he'
      subst h1
      have hv : lookupD (mergeRecords results) k = v :=
        lookupD_eq_of_mem _ _ _ (mergeRecords_keys_nodup results) hem
      refine ⟨?_, by rw [hv, h2]⟩
      rw [hv]
      simpa using hne
  · rintro ⟨hne, hs⟩
    refine List.mem_filterMap.mpr
      ⟨(t, lookupD (mergeRecords results) t), mem_of_lookupD _ _ hne, ?_⟩
    have hfalse : (lookupD (mergeRecords results) t).isEmpty = false := by
      simpa using hne
    rw [hfalse]
    simp [hs]

/-- C7: a query type is present in the report exactly when it has at least
one recorded duration in the merged mapping, and its reported statistics
block is computed from exactly those durations; a type with zero
occurrences is omitted rather than reported as zero or NaN
(src/run_benchmark.py lines 137-149). -/
theorem kind_stats_emitted_iff_nonempty (W Q : Nat)
    (envs : Nat → WorkerEnv) (dur : ℚ) (t : QueryType) :
    ((∃ s, (t, s) ∈ (mainReport W Q envs dur).kinds) ↔
      1 ≤ (lookupD (mergeRecords (runResults W Q envs)) t).length) ∧
    ∀ s, (t, s) ∈ (mainReport W Q envs dur).kinds →
      s = statsOf (lookupD (mergeRecords (runResults W Q envs)) t) := by
  have hmain : (mainReport W Q envs dur).kinds =
      (collectorReport (runResults W Q envs) dur).kinds := rfl
  constructor
  · constructor
    · rintro ⟨s, hs⟩
      rw [hmain, mem_kinds_iff] at hs
      have hne := hs.1
      have : (lookupD (mergeRecords (runResults W Q envs)) t).length ≠ 0 := by
        simpa [List.length_eq_zero] using hne
      omega
    · intro hlen
      have hne : lookupD (mergeRecords (runResults W Q envs)) t ≠ [] := by
        intro hnil
        rw [hnil] at hlen
        simp at hlen
      exact ⟨statsOf (lookupD (mergeRecords (runResults W Q envs)) t),
        by rw [hmain, mem_kinds_iff]; exact ⟨hne, rfl⟩⟩
  · intro s hs
    rw [hmain, mem_kinds_iff] at hs
    exact hs.2

/-- Witness for C7: a run producing one SELECT record emits exactly the
SELECT statistics block computed from its single duration. -/
theorem kind_stats_emitted_iff_nonempty_witness :
    (∃ s, (QueryType.select, s) ∈
      (mainReport 1 1 (fun _ => envOkAll) 1).kinds) ∧
    statsOf [1] =
      statsOf (lookupD (mergeRecords (runResults 1 1 (fun _ => envOkAll)))
        QueryType.select) := by
  have hlook : lookupD (mergeRecords (runResults 1 1 (fun _ => envOkAll)))
      QueryType.select = [1] := rfl
  refine ⟨(kind_stats_emitted_iff_nonempty 1 1 (fun _ => envOkAll) 1
      QueryType.select).1.mpr (by rw [hlook]; simp),
    (kind_stats_emitted_iff_nonempty 1 1 (fun _ => envOkAll) 1
      QueryType.select).2 (statsOf [1]) ?_⟩
  exact (mem_kinds_iff (runResults 1 1 (fun _ => envOkAll)) 1
    QueryType.select (statsOf [1])).mpr ⟨by simp [hlook], by rw [hlook]⟩

/-! Permutation invariance of the collector statistics. -/

/-- Folding min never exceeds the initial accumulator. -/
theorem foldl_min_le_init (xs : List ℚ) : ∀ a : ℚ, xs.foldl min a ≤ a := by
  induction xs with
  | nil => intro a; exact le_rfl
  | cons x xs ih =>
    intro a
    exact le_trans (ih (min a x)) (min_le_left a x)

/-- Folding min never exceeds any list element. -/
theorem foldl_min_le_mem (xs : List ℚ) :
    ∀ a y, y ∈ xs → xs.foldl min a ≤ y := by
  induction xs with
  | nil => intro a y hy; simp at hy
  | cons x xs ih =>
    intro a y hy
    rcases List.mem_cons.mp hy with h | h
    · subst h
      exact le_trans (foldl_min_le_init xs (min a y)) (min_le_right a y)
    · exact ih (min a x) y h

/-- Folding min returns the accumulator or a list element. -/
theorem foldl_min_mem (xs : List ℚ) :
    ∀ a, xs.foldl min a = a ∨ xs.foldl min a ∈ xs := by
  induction xs with
  | nil => intro a; left; rfl
  | cons x xs ih =>
    intro a
    rcases ih (min a x) with h | h
    · rcases min_choice a x with hc | hc
      · left; rw [List.foldl_cons, h, hc]
      · right; rw [List.foldl_cons, h, hc]; exact List.mem_cons_self _ _
    · right; exact List.mem_cons_of_mem _ h

/-- The minimum of a nonempty list is an element of it. -/
theorem listMin_mem (l : List ℚ) (h : l ≠ []) : listMin l ∈ l := by
  cases l with
  | nil => exact absurd rfl h
  | cons x xs =>
    rcases foldl_min_mem xs x with h1 | h1
    · simp only [listMin, h1]; exact List.mem_cons_self _ _
    · simp only [listMin]; exact List.mem_cons_of_mem _ h1

/-- The minimum of a list bounds every element from below. -/
theorem listMin_le_mem (l : List ℚ) (y : ℚ) (hy : y ∈ l) :
    listMin l ≤ y := by
  cases l with
  | nil => simp at hy
  | cons x xs =>
    rcases List.mem_cons.mp hy with h | h
    · subst h; exact foldl_min_le_init xs y
    · exact foldl_min_le_mem xs x y h

/-- The minimum is invariant under permutation. -/
theorem listMin_perm (l₁ l₂ : List ℚ) (h : l₁.Perm l₂) :
    listMin l₁ = listMin l₂ := by
  rcases eq_or_ne l₁ [] with h1 | h1
  · subst h1
    rw [List.Perm.eq_nil h.symm]
  · have h2 : l₂ ≠ [] := by
      intro hh
      subst hh
      exact h1 (List.Perm.eq_nil h)
    apply le_antisymm
    · exact listMin_le_mem _ _ (h.mem_iff.mpr (listMin_mem l₂ h2))
    · exact listMin_le_mem _ _ (h.symm.mem_iff.mpr (listMin_mem l₁ h1))

/-- Folding max never drops below the initial accumulator. -/
theorem foldl_max_ge_init (xs : List ℚ) : ∀ a : ℚ, a ≤ xs.foldl max a := by
  induction xs with
  | nil => intro a; exact le_rfl
  | cons x xs ih =>
    intro a
    exact le_trans (le_max_left a x) (ih (max a x))

/-- Folding max bounds every list element from above. -/
theorem foldl_max_ge_mem (xs : List ℚ) :
    ∀ a y, y ∈ xs → y ≤ xs.foldl max a := by
  induction xs with
  | nil => intro a y hy; simp at hy
  | cons x xs ih =>
    intro a y hy
    rcases List.mem_cons.mp hy with h | h
    · subst h
      exact le_trans (le_max_right a y) (foldl_max_ge_init xs (max a y))
    · exact ih (max a x) y h

/-- Folding max returns the accumulator or a list element. -/
theorem foldl_max_mem (xs : List ℚ) :
    ∀ a, xs.foldl max a = a ∨ xs.foldl max a ∈ xs := by
  induction xs with
  | nil => intro a; left; rfl
  | cons x xs ih =>
    intro a
    rcases ih (max a x) with h | h
    · rcases max_choice a x with hc | hc
      · left; rw [List.foldl_cons, h, hc]
      · right; rw [List.foldl_cons, h, hc]; exact List.mem_cons_self _ _
    · right; exact List.mem_cons_of_mem _ h

/-- The maximum of a nonempty list is an element of it. -/
theorem listMax_mem (l : List ℚ) (h : l ≠ []) : listMax l ∈ l := by
  cases l with
  | nil => exact absurd rfl h
  | cons x xs =>
    rcases foldl_max_mem xs x with h1 | h1
    · simp only [listMax, h1]; exact List.mem_cons_self _ _
    · simp only [listMax]; exact List.mem_cons_of_mem _ h1

/-- The maximum of a list bounds every element from above. -/
theorem listMax_ge_mem (l : List ℚ) (y : ℚ) (hy : y ∈ l) :
    y ≤ listMax l := by
  cases l with
  | nil => simp at hy
  | cons x xs =>
    rcases List.mem_cons.mp hy with h | h
    · subst h; exact foldl_max_ge_init xs y
    · exact foldl_max_ge_mem xs x y h

/-- The maximum is invariant under permutation. -/
theorem listMax_perm (l₁ l₂ : List ℚ) (h : l₁.Perm l₂) :
    listMax l₁ = listMax l₂ := by
  rcases eq_or_ne l₁ [] with h1 | h1
  · subst h1
    rw [List.Perm.eq_nil h.symm]
  · have h2 : l₂ ≠ [] := by
      intro hh
      subst hh
      exact h1 (List.Perm.eq_nil h)
    apply le_antisymm
    · exact listMax_ge_mem _ _ (h.symm.mem_iff.mpr (listMax_mem l₁ h1))
    · exact listMax_ge_mem _ _ (h.mem_iff.mpr (listMax_mem l₂ h2))

/-- Permuted data sorts to the same list. -/
theorem mergeSort_perm_eq (l₁ l₂ : List ℚ) (h : l₁.Perm l₂) :
    l₁.mergeSort (fun a b => decide (a ≤ b)) =
      l₂.mergeSort (fun a b => decide (a ≤ b)) :=
  List.eq_of_perm_of_sorted
    (((List.mergeSort_perm l₁ _).trans h).trans
      (List.mergeSort_perm l₂ _).symm)
    (List.sorted_mergeSort' l₁) (List.sorted_mergeSort' l₂)

/-- The per-type statistics block is invariant under permutation of its
duration list. -/
theorem statsOf_perm (l₁ l₂ : List ℚ) (h : l₁.Perm l₂) :
    statsOf l₁ = statsOf l₂ := by
  have hlen := h.length_eq
  have hsum := h.sum_eq
  have hsort := mergeSort_perm_eq l₁ l₂ h
  have hmin := listMin_perm l₁ l₂ h
  have hmax := listMax_perm l₁ l₂ h
  simp only [statsOf, pymedian]
  rw [hlen, hsum, hsort, hmin, hmax]

/-- C8: the collector output is invariant under permutation of the order
in which worker results are merged: total query count, total error count,
throughput, and the emitted per-type statistics blocks (count, mean,
median, min, max) all agree for any two merge orders of the same multiset
of worker results (src/run_benchmark.py lines 113-128 and 137-149). -/
theorem collector_merge_order_invariant
    (results₁ results₂ : List (List QueryRecord × Nat)) (dur : ℚ)
    (hp : results₁.Perm results₂) :
    (collectorReport results₁ dur).totalQueries =
      (collectorReport results₂ dur).totalQueries ∧
    (collectorReport results₁ dur).totalErrors =
      (collectorReport results₂ dur).totalErrors ∧
    (collectorReport results₁ dur).queriesPerSecond =
      (collectorReport results₂ dur).queriesPerSecond ∧
    ∀ t s, ((t, s) ∈ (collectorReport results₁ dur).kinds ↔
      (t, s) ∈ (collectorReport results₂ dur).kinds) := by
  have hall : (allRecords results₁).Perm (allRecords results₂) :=
    List.Perm.flatMap_right Prod.fst hp
  have hq : (collectorReport results₁ dur).totalQueries =
      (collectorReport results₂ dur).totalQueries := by
    have e₁ : (collectorReport results₁ dur).totalQueries =
        totalQueriesOf results₁ := rfl
    have e₂ : (collectorReport results₂ dur).totalQueries =
        totalQueriesOf results₂ := rfl
    rw [e₁, e₂, totalQueriesOf_eq_length, totalQueriesOf_eq_length,
      hall.length_eq]
  refine ⟨hq, ?_, ?_, ?_⟩
  · have e₁ : (collectorReport results₁ dur).totalErrors =
        (results₁.map Prod.snd).sum := rfl
    have e₂ : (collectorReport results₂ dur).totalErrors =
        (results₂.map Prod.snd).sum := rfl
    rw [e₁, e₂, (hp.map Prod.snd).sum_eq]
  · have e₁ : (collectorReport results₁ dur).queriesPerSecond =
        if 0 < dur then
          ((collectorReport results₁ dur).totalQueries : ℚ) / dur
        else 0 := rfl
    have e₂ : (collectorReport results₂ dur).queriesPerSecond =
        if 0 < dur then
          ((collectorReport results₂ dur).totalQueries : ℚ) / dur
        else 0 := rfl
    rw [e₁, e₂, hq]
  · intro t s
    have hkd : (lookupD (mergeRecords results₁) t).Perm
        (lookupD (mergeRecords results₂) t) := by
      rw [lookupD_mergeRecords, lookupD_mergeRecords]
      exact ((hall.filter _).map _)
    have hstats : statsOf (lookupD (mergeRecords results₁) t) =
        statsOf (lookupD (mergeRecords results₂) t) :=
      statsOf_perm _ _ hkd
    have hne : lookupD (mergeRecords results₁) t ≠ [] ↔
        lookupD (mergeRecords results₂) t ≠ [] := by
      constructor <;> intro hne hnil
      · rw [hnil] at hkd
        exact hne (List.Perm.eq_nil hkd)
      · rw [hnil] at hkd
        exact hne (List.Perm.eq_nil hkd.symm)
    rw [mem_kinds_iff, mem_kinds_iff]
    constructor
    · rintro ⟨h1, h2⟩
      exact ⟨hne.mp h1, by rw [h2, hstats]⟩
    · rintro ⟨h1, h2⟩
      exact ⟨hne.mpr h1, by rw [h2, hstats]⟩

/-- Witness for C8: swapping the merge order of two worker results leaves
the collector output unchanged. -/
theorem collector_merge_order_invariant_witness :
    (collectorReport [([(QueryType.select, 1)], 0), ([], 2)] 1).totalQueries
        = (collectorReport [([], 2), ([(QueryType.select, 1)], 0)] 1).totalQueries ∧
    (collectorReport [([(QueryType.select, 1)], 0), ([], 2)] 1).totalErrors
        = (collectorReport [([], 2), ([(QueryType.select, 1)], 0)] 1).totalErrors ∧
    (collectorReport [([(QueryType.select, 1)], 0), ([], 2)] 1).queriesPerSecond
        = (collectorReport [([], 2), ([(QueryType.select, 1)], 0)] 1).queriesPerSecond ∧
    ∀ t s, ((t, s) ∈
        (collectorReport [([(QueryType.select, 1)], 0), ([], 2)] 1).kinds ↔
      (t, s) ∈
        (collectorReport [([], 2), ([(QueryType.select, 1)], 0)] 1).kinds) :=
  collector_merge_order_invariant _ _ 1 (List.Perm.swap _ _ _)

/-! Injectivity of the insert identities.  The username is the literal
user_ followed by the decimal representations of the worker id and the
iteration index separated by an underscore; decimal digit strings contain
no underscore and decode uniquely, so the pair is recoverable. -/

/-- Decimal digit characters decode to their value. -/
theorem digitVal_digitChar : ∀ d, d < 10 →
    digitVal (Nat.digitChar d) = d := by decide

/-- Decimal digit characters are digits. -/
theorem isDigit_digitChar : ∀ d, d < 10 →
    (Nat.digitChar d).isDigit = true := by decide

/-- Every character produced by the decimal printer core is a digit. -/
theorem toDigitsCore_isDigit (fuel : Nat) : ∀ (n : Nat) (ds : List Char),
    (∀ c ∈ ds, c.isDigit = true) →
    ∀ c ∈ Nat.toDigitsCore 10 fuel n ds, c.isDigit = true := by
  induction fuel with
  | zero =>
    intro n ds hds
    simpa only [Nat.toDigitsCore] using hds
  | succ fuel ih =>
    intro n ds hds
    have hdigit : (Nat.digitChar (n % 10)).isDigit = true :=
      isDigit_digitChar _ (Nat.mod_lt _ (by norm_num))
    have hcons : ∀ c ∈ Nat.digitChar (n % 10) :: ds, c.isDigit = true := by
      intro c hc
      rcases List.mem_cons.mp hc with h | h
      · subst h; exact hdigit
      · exact hds c h
    simp only [Nat.toDigitsCore]
    by_cases hz : n / 10 = 0
    · rw [if_pos hz]
      exact hcons
    · rw [if_neg hz]
      exact ih (n / 10) _ hcons

/-- Every character of a decimal representation is a digit. -/
theorem toDigits_isDigit (n : Nat) :
    ∀ c ∈ Nat.toDigits 10 n, c.isDigit = true :=
  toDigitsCore_isDigit (n + 1) n [] (by simp)

/-- No decimal representation contains an underscore. -/
theorem underscore_not_mem_toDigits (n : Nat) :
    '_' ∉ Nat.toDigits 10 n := by
  intro h
  have := toDigits_isDigit n '_' h
  simp at this

/-- With enough fuel, the printer core prepends the digits of n to its
accumulator. -/
theorem toDigitsCore_eq (n : Nat) : ∀ (fuel : Nat) (ds : List Char),
    n < fuel →
    Nat.toDigitsCore 10 fuel n ds = Nat.toDigits 10 n ++ ds := by
  induction n using Nat.strong_induction_on with
  | _ n ih =>
    intro fuel ds hfuel
    obtain ⟨fuel, rfl⟩ : ∃ f, fuel = f + 1 :=
      ⟨fuel - 1, by omega⟩
    by_cases hz : n / 10 = 0
    · simp only [Nat.toDigitsCore, Nat.toDigits, if_pos hz]
      rfl
    · have hn10 : 0 < n := by
        rcases Nat.eq_zero_or_pos n with h | h
        · exact absurd (by simp [h]) hz
        · exact h
      have hdivlt : n / 10 < n := Nat.div_lt_self hn10 (by norm_num)
      have hfuel' : n / 10 < fuel := by omega
      simp only [Nat.toDigitsCore, Nat.toDigits, if_neg hz]
      rw [ih (n / 10) hdivlt fuel _ hfuel',
        ih (n / 10) hdivlt n _ (by omega)]
      simp

/-- The decimal representation of a small number is a single digit. -/
theorem toDigits_small (n : Nat) (h : n < 10) :
    Nat.toDigits 10 n = [Nat.digitChar n] := by
  have hz : n / 10 = 0 := Nat.div_eq_of_lt h
  have hm : n % 10 = n := Nat.mod_eq_of_lt h
  simp only [Nat.toDigits, Nat.toDigitsCore, if_pos hz, hm]

/-- The decimal representation of a large number splits off its last
digit. -/
theorem toDigits_split (n : Nat) (h : 10 ≤ n) :
    Nat.toDigits 10 n =
      Nat.toDigits 10 (n / 10) ++ [Nat.digitChar (n % 10)] := by
  have hz : n / 10 ≠ 0 := by
    intro hzz
    have := Nat.div_eq_of_lt (show n < 10 by omega)
    omega
  have hdivlt : n / 10 < n := Nat.div_lt_self (by omega) (by norm_num)
  conv_lhs => rw [Nat.toDigits]
  simp only [Nat.toDigitsCore, if_neg hz]
  exact toDigitsCore_eq (n / 10) n _ (by omega)

/-- Reading the decimal representation back, with any accumulator. -/
theorem foldl_toDigits (n : Nat) : ∀ acc : Nat,
    (Nat.toDigits 10 n).foldl (fun a c => 10 * a + digitVal c) acc =
      acc * 10 ^ (Nat.toDigits 10 n).length + n := by
  induction n using Nat.strong_induction_on with
  | _ n ih =>
    intro acc
    by_cases h : n < 10
    · rw [toDigits_small n h]
      simp [digitVal_digitChar n h]
      omega
    · have h10 : 10 ≤ n := by omega
      have hdivlt : n / 10 < n := Nat.div_lt_self (by omega) (by norm_num)
      rw [toDigits_split n h10, List.foldl_append, ih (n / 10) hdivlt acc]
      have hmod : digitVal (Nat.digitChar (n % 10)) = n % 10 :=
        digitVal_digitChar _ (Nat.mod_lt _ (by norm_num))
      simp only [List.foldl_cons, List.foldl_nil, hmod, List.length_append,
        List.length_cons, List.length_nil]
      have hdm : 10 * (n / 10) + n % 10 = n := by omega
      set p := 10 ^ (Nat.toDigits 10 (n / 10)).length with hp
      calc 10 * (acc * p + n / 10) + n % 10
          = acc * (p * 10) + (10 * (n / 10) + n % 10) := by ring
        _ = acc * (p * 10) + n := by rw [hdm]
        _ = acc * 10 ^ ((Nat.toDigits 10 (n / 10)).length + (0 + 1)) + n := by
            rw [hp]
            ring_nf


/-- Decoding inverts the decimal printer. -/
theorem decDigits_toDigits (n : Nat) :
    decDigits (Nat.toDigits 10 n) = n := by
  have h := foldl_toDigits n 0
  simpa [decDigits] using h

/-- The decimal printer is injective. -/
theorem toDigits_injective (m n : Nat)
    (h : Nat.toDigits 10 m = Nat.toDigits 10 n) : m = n := by
  rw [← decDigits_toDigits m, h, decDigits_toDigits]

/-- Splitting at a separator absent from both prefixes is unambiguous. -/
theorem append_sep_inj (xs₁ : List Char) :
    ∀ (xs₂ ys₁ ys₂ : List Char), '_' ∉ xs₁ → '_' ∉ xs₂ →
    xs₁ ++ '_' :: ys₁ = xs₂ ++ '_' :: ys₂ → xs₁ = xs₂ ∧ ys₁ = ys₂ := by
  induction xs₁ with
  | nil =>
    intro xs₂ ys₁ ys₂ h1 h2 heq
    cases xs₂ with
    | nil => simpa using heq
    | cons b bs =>
      simp only [List.nil_append, List.cons_append, List.cons.injEq] at heq
      exact absurd (by simp [← heq.1]) h2
  | cons a as ih =>
    intro xs₂ ys₁ ys₂ h1 h2 heq
    cases xs₂ with
    | nil =>
      simp only [List.nil_append, List.cons_append, List.cons.injEq] at heq
      exact absurd (by simp [heq.1]) h1
    | cons b bs =>
      simp only [List.cons_append, List.cons.injEq] at heq
      obtain ⟨hab, htail⟩ := heq
      have h1' : '_' ∉ as := fun hh => h1 (List.mem_cons_of_mem _ hh)
      have h2' : '_' ∉ bs := fun hh => h2 (List.mem_cons_of_mem _ hh)
      obtain ⟨hxs, hys⟩ := ih bs ys₁ ys₂ h1' h2' htail
      exact ⟨by rw [hab, hxs], hys⟩

/-- The character data of the generated username. -/
theorem insertUsername_data (t i : Nat) :
    (insertUsername t i).data =
      'u' :: 's' :: 'e' :: 'r' :: '_' ::
        (Nat.toDigits 10 t ++ '_' :: Nat.toDigits 10 i) := by
  show ("user_".data ++ (Nat.toDigits 10 t).asString.data ++ "_".data ++
      (Nat.toDigits 10 i).asString.data) = _
  simp [List.asString]

/-- C5: the insert identity generation is injective on the pair of worker
id and iteration index: two equal generated usernames, or two equal
generated emails, can only come from the same worker id and the same
iteration index, so identities never collide across workers or
iterations (src/run_benchmark.py lines 65-66). -/
theorem insert_identity_injective (t₁ i₁ t₂ i₂ : Nat)
    (h : insertUsername t₁ i₁ = insertUsername t₂ i₂ ∨
         insertEmail t₁ i₁ = insertEmail t₂ i₂) :
    t₁ = t₂ ∧ i₁ = i₂ := by
  have huser : insertUsername t₁ i₁ = insertUsername t₂ i₂ := by
    rcases h with h | h
    · exact h
    · have hd := congrArg String.data h
      have hd' : (insertUsername t₁ i₁).data ++ "@example.com".data =
          (insertUsername t₂ i₂).data ++ "@example.com".data := hd
      exact String.ext (List.append_cancel_right hd')
  have hd := congrArg String.data huser
  rw [insertUsername_data, insertUsername_data] at hd
  simp only [List.cons.injEq, true_and] at hd
  obtain ⟨ht, hi⟩ := append_sep_inj _ _ _ _
    (underscore_not_mem_toDigits t₁) (underscore_not_mem_toDigits t₂) hd
  exact ⟨toDigits_injective _ _ ht, toDigits_injective _ _ hi⟩

/-- Witness for C5: equal identities at a concrete input force equal
indices. -/
theorem insert_identity_injective_witness : 7 = 7 ∧ 8 = 8 :=
  insert_identity_injective 7 8 7 8 (Or.inl rfl)

end Benchmark
